import Mathlib

/-!
Verification of the `aster-bot` orchestration engine (`mirror_paper_to_live.py`
and `src/paper_engine.py`) against its natural-language specification.

The Python source is shallowly embedded: dictionaries become association
lists over `String` keys, floats become exact rationals (`ℚ`), wall-clock
reads (`time.time()`) become explicit `now` parameters, CSV appends become
a `log : List …` field, and every fallible operation returns `Except`/`Option`.
-/

namespace AsterBot

/-- Lookup in an association list, as Python `dict.get` (keys are unique in
a Python dict, so the first match is the match). -/
def alookup {α : Type} : List (String × α) → String → Option α
  | [], _ => none
  | (k, v) :: rest, key => if k = key then some v else alookup rest key

/-- Insert-or-replace, as Python `dict.__setitem__` (replaces the existing
entry in place, otherwise appends at the end, matching dict insertion order). -/
def aset {α : Type} : List (String × α) → String → α → List (String × α)
  | [], key, v => [(key, v)]
  | (k, w) :: rest, key, v =>
    if k = key then (k, v) :: rest else (k, w) :: aset rest key v

/-- Remove a key, as Python `dict.pop(key, None)`. -/
def aerase {α : Type} : List (String × α) → String → List (String × α)
  | [], _ => []
  | (k, v) :: rest, key => if k = key then rest else (k, v) :: aerase rest key

/-- The unique-keys invariant every Python dict satisfies. -/
def keysNodup {α : Type} (l : List (String × α)) : Prop :=
  (l.map Prod.fst).Nodup

theorem alookup_aset_self {α : Type} (l : List (String × α)) (k : String) (v : α) :
    alookup (aset l k v) k = some v := by
  induction l with
  | nil => simp [aset, alookup]
  | cons hd tl ih =>
    obtain ⟨k', v'⟩ := hd
    by_cases h : k' = k <;> simp [aset, alookup, h, ih]

theorem alookup_aset_ne {α : Type} (l : List (String × α)) (k sym : String) (v : α)
    (h : k ≠ sym) : alookup (aset l k v) sym = alookup l sym := by
  induction l with
  | nil => simp [aset, alookup, h]
  | cons hd tl ih =>
    obtain ⟨k', v'⟩ := hd
    by_cases hk : k' = k
    · subst hk; simp [aset, alookup, h]
    · simp [aset, alookup, hk, ih]

theorem alookup_aerase_ne {α : Type} (l : List (String × α)) (k sym : String)
    (h : sym ≠ k) : alookup (aerase l k) sym = alookup l sym := by
  induction l with
  | nil => simp [aerase, alookup]
  | cons hd tl ih =>
    obtain ⟨k', v'⟩ := hd
    by_cases hk : k' = k
    · subst hk
      have hks : ¬ (k' = sym) := fun hco => h hco.symm
      simp [aerase, alookup, hks]
    · simp [aerase, alookup, hk, ih]

theorem alookup_none_of_not_memKeys {α : Type} (l : List (String × α)) (k : String)
    (h : k ∉ l.map Prod.fst) : alookup l k = none := by
  induction l with
  | nil => rfl
  | cons hd tl ih =>
    obtain ⟨k', v'⟩ := hd
    simp only [List.map_cons, List.mem_cons] at h
    push_neg at h
    have hne : ¬ (k' = k) := fun hco => h.1 hco.symm
    simp [alookup, hne, ih h.2]

theorem alookup_aerase_self {α : Type} (l : List (String × α)) (k : String)
    (h : keysNodup l) : alookup (aerase l k) k = none := by
  induction l with
  | nil => rfl
  | cons hd tl ih =>
    obtain ⟨k', v'⟩ := hd
    simp only [keysNodup, List.map_cons, List.nodup_cons] at h
    by_cases hk : k' = k
    · have hrw : aerase ((k', v') :: tl) k = tl := by simp [aerase, hk]
      rw [hrw, ← hk]
      exact alookup_none_of_not_memKeys tl k' h.1
    · simp [aerase, alookup, hk, ih h.2]

theorem alookup_aerase_sub {α : Type} (l : List (String × α)) (k sym : String) (p : α)
    (hnd : keysNodup l) (h : alookup (aerase l k) sym = some p) :
    alookup l sym = some p := by
  by_cases hs : sym = k
  · subst hs; rw [alookup_aerase_self l sym hnd] at h; exact absurd h (by simp)
  · rwa [alookup_aerase_ne l k sym hs] at h

theorem memKeys_aset {α : Type} (l : List (String × α)) (k k' : String) (v : α)
    (h : k' ∈ (aset l k v).map Prod.fst) : k' ∈ l.map Prod.fst ∨ k' = k := by
  induction l with
  | nil =>
    simp only [aset, List.map_cons, List.map_nil, List.mem_singleton] at h
    exact Or.inr h
  | cons hd tl ih =>
    obtain ⟨k2, v2⟩ := hd
    by_cases h2 : k2 = k
    · have hrw : aset ((k2, v2) :: tl) k v = (k2, v) :: tl := by simp [aset, h2]
      rw [hrw] at h
      simp only [List.map_cons, List.mem_cons] at h
      simp only [List.map_cons, List.mem_cons]
      rcases h with h3 | h3
      · exact Or.inl (Or.inl h3)
      · exact Or.inl (Or.inr h3)
    · simp only [aset, if_neg h2, List.map_cons, List.mem_cons] at h
      simp only [List.map_cons, List.mem_cons]
      rcases h with h3 | h3
      · exact Or.inl (Or.inl h3)
      · rcases ih h3 with h4 | h4
        · exact Or.inl (Or.inr h4)
        · exact Or.inr h4

theorem memKeys_aerase {α : Type} (l : List (String × α)) (k k' : String)
    (h : k' ∈ (aerase l k).map Prod.fst) : k' ∈ l.map Prod.fst := by
  induction l with
  | nil => simp [aerase] at h
  | cons hd tl ih =>
    obtain ⟨k2, v2⟩ := hd
    by_cases h2 : k2 = k
    · have hrw : aerase ((k2, v2) :: tl) k = tl := by simp [aerase, h2]
      rw [hrw] at h
      exact List.mem_cons_of_mem _ h
    · simp only [aerase, if_neg h2, List.map_cons, List.mem_cons] at h ⊢
      rcases h with h3 | h3
      · exact Or.inl h3
      · exact Or.inr (ih h3)

theorem keysNodup_aset {α : Type} (l : List (String × α)) (k : String) (v : α)
    (h : keysNodup l) : keysNodup (aset l k v) := by
  induction l with
  | nil => simp [aset, keysNodup]
  | cons hd tl ih =>
    obtain ⟨k', v'⟩ := hd
    simp only [keysNodup, List.map_cons, List.nodup_cons] at h
    by_cases hk : k' = k
    · have hrw : aset ((k', v') :: tl) k v = (k', v) :: tl := by
        simp [aset, hk]
      rw [hrw]
      simp only [keysNodup, List.map_cons, List.nodup_cons]
      exact ⟨h.1, h.2⟩
    · have htl := ih h.2
      simp only [aset, if_neg hk, keysNodup, List.map_cons, List.nodup_cons]
      refine ⟨?_, htl⟩
      intro hmem
      rcases memKeys_aset tl k k' v hmem with h3 | h3
      · exact h.1 h3
      · exact hk h3

theorem keysNodup_aerase {α : Type} (l : List (String × α)) (k : String)
    (h : keysNodup l) : keysNodup (aerase l k) := by
  induction l with
  | nil => simpa [aerase] using h
  | cons hd tl ih =>
    obtain ⟨k', v'⟩ := hd
    simp only [keysNodup, List.map_cons, List.nodup_cons] at h
    by_cases hk : k' = k
    · have hrw : aerase ((k', v') :: tl) k = tl := by simp [aerase, hk]
      rw [hrw]
      exact h.2
    · have htl := ih h.2
      simp only [aerase, if_neg hk, keysNodup, List.map_cons, List.nodup_cons]
      exact ⟨fun hmem => h.1 (memKeys_aerase tl k k' hmem), htl⟩

/-! ## Mirror engine configuration (`mirror_paper_to_live.py`, class `Config`)

Only the tunables the verified operations read are embedded; field names
keep the source spelling. -/

structure Config where
  TRADE_NOTIONAL_USD : ℚ
  MAX_HOLDING_SEC : ℚ
  MAX_TRADES_PER_HOUR : ℕ
  COOLDOWN_AFTER_TRADE_SEC : ℚ
  TP_PCT : ℚ
  SL_PCT : ℚ
  LOSS_STREAK_TO_ARM : ℕ
  PAPER_ENABLED : Bool
  LIVE_NOTIONAL_USD : ℚ
  LIVE_LEVERAGE : ℤ
  LIVE_MAX_POSITIONS : ℕ
  WATCH_POLL_SEC : ℚ
  WATCH_PROFIT_TIMEOUT_SEC : ℚ
  WATCH_HARD_TIMEOUT_SEC : ℚ
  EMERGENCY_CLOSE_ON_HARD_TIMEOUT : Bool
  WS_STALE_SEC : ℚ
  WS_STALE_HITS_TO_RECONNECT : ℕ
  SYMBOL_MODE : String
  WHITELIST : List String
  BLACKLIST : List String
  SKIP_SYMBOLS : List String
  QUOTE : String
  AUTO_TOP_N : ℕ
  TARGET_SYMBOLS : ℕ
  MIN_24H_QUOTE_VOL : ℚ

namespace Paper

/-- Dataclass `Position` of `mirror_paper_to_live.py`. -/
structure Position where
  symbol : String
  side : String
  entry : ℚ
  tp : ℚ
  sl : ℚ
  opened_ts : ℚ
deriving DecidableEq

/-- One appended row of the paper CSV log (`_append_csv` payload, semantic
fields only; the wall-clock `ts` column is not modelled). -/
structure LogRow where
  symbol : String
  side : String
  event : String
  entry : ℚ
  exit_price : Option ℚ
  tp : ℚ
  sl : ℚ
  pnl_pct : Option ℚ
  net_pnl_usd : Option ℚ
  reason : String
deriving DecidableEq

/-- Mutable state of `mirror_paper_to_live.PaperEngine`. -/
structure State where
  positions : List (String × Position)
  last_trade_ts : List (String × ℚ)
  trade_counts_hour : List ℚ
  streak_losses : List (String × ℕ)
  freeze_paper_entries : Bool
  freeze_streak_updates : Bool
  trigger_symbol : Option String
  log : List LogRow

/-- Reads `self.streak_losses.get(symbol, 0)`. -/
def streakGet (s : State) (symbol : String) : ℕ :=
  (alookup s.streak_losses symbol).getD 0

/-- Embeds `PaperEngine._pnl_pct`. -/
def pnlPct (pos : Position) (exit_price : ℚ) : ℚ :=
  if pos.side = "LONG" then (exit_price - pos.entry) / pos.entry * 100
  else (pos.entry - exit_price) / pos.entry * 100

/-- Return value of `PaperEngine.close`. -/
structure CloseResult where
  symbol : String
  pnl_pct : ℚ
  net_pnl_usd : ℚ
  reason : String
deriving DecidableEq

/-- The `is_loss` ladder inside `PaperEngine.close`: `SL` → loss, `TP` →
win, `TIMEOUT` → loss iff `net < 0`, any other reason → loss iff
`net < 0`. -/
def isLoss (reason : String) (net : ℚ) : Bool :=
  if reason = "SL" then true
  else if reason = "TP" then false
  else if reason = "TIMEOUT" then decide (net < 0)
  else decide (net < 0)

/-- The streak value `PaperEngine.close` stores:
`self.streak_losses.get(symbol, 0) + 1` on a loss, `0` otherwise. -/
def newStreak (streaks : List (String × ℕ)) (symbol : String)
    (loss : Bool) : ℕ :=
  if loss then (alookup streaks symbol).getD 0 + 1 else 0

/-- Embeds `PaperEngine.close(symbol, exit_price, reason)`: pop the position (a
missing position returns `None`), log the CLOSE row, then — unless
`freeze_streak_updates` — update the loss streak (via `isLoss` /
`newStreak`) and arm the freeze when the streak reaches
`LOSS_STREAK_TO_ARM`. -/
def close (cfg : Config) (s : State) (symbol : String) (exit_price : ℚ)
    (reason : String) : Option CloseResult × State :=
  match alookup s.positions symbol with
  | none => (none, s)
  | some pos =>
    let pnl_pct := pnlPct pos exit_price
    let net := cfg.TRADE_NOTIONAL_USD * (pnl_pct / 100)
    let row : LogRow :=
      { symbol := symbol, side := pos.side, event := "CLOSE", entry := pos.entry,
        exit_price := some exit_price, tp := pos.tp, sl := pos.sl,
        pnl_pct := some pnl_pct, net_pnl_usd := some net, reason := reason }
    let s1 := { s with positions := aerase s.positions symbol,
                       log := s.log ++ [row] }
    let s2 :=
      if s1.freeze_streak_updates then s1
      else
        let streak : ℕ := newStreak s1.streak_losses symbol (isLoss reason net)
        let s1a := { s1 with streak_losses := aset s1.streak_losses symbol streak }
        if ¬ s1a.freeze_paper_entries = true ∧ cfg.LOSS_STREAK_TO_ARM ≤ streak then
          { s1a with freeze_paper_entries := true,
                     freeze_streak_updates := true,
                     trigger_symbol := some symbol }
        else s1a
    (some { symbol := symbol, pnl_pct := pnl_pct, net_pnl_usd := net,
            reason := reason }, s2)

/-- Embeds `PaperEngine._can_open(symbol)`. Besides the boolean verdict it returns
the state with the hour-window deque pruned (the only mutation the Python
method performs); `time.time()` is the explicit `now`. -/
def canOpen (cfg : Config) (s : State) (now : ℚ) (symbol : String) : Bool × State :=
  if s.freeze_paper_entries then (false, s)
  else if (alookup s.positions symbol).isSome then (false, s)
  else if now - ((alookup s.last_trade_ts symbol).getD 0) < cfg.COOLDOWN_AFTER_TRADE_SEC
  then (false, s)
  else
    let cutoff := now - 3600
    let dq := s.trade_counts_hour.dropWhile (fun t => decide (t < cutoff))
    let s' := { s with trade_counts_hour := dq }
    if cfg.MAX_TRADES_PER_HOUR ≤ dq.length then (false, s') else (true, s')

/-- Embeds `PaperEngine.open(symbol, side, price)` (named `openPos` here because
`open` is a Lean keyword). -/
def openPos (cfg : Config) (s : State) (now : ℚ) (symbol side : String)
    (price : ℚ) : State :=
  let tp := if side = "LONG" then price * (1 + cfg.TP_PCT / 100)
            else price * (1 - cfg.TP_PCT / 100)
  let sl := if side = "LONG" then price * (1 - cfg.SL_PCT / 100)
            else price * (1 + cfg.SL_PCT / 100)
  let pos : Position :=
    { symbol := symbol, side := side, entry := price, tp := tp, sl := sl,
      opened_ts := now }
  let row : LogRow :=
    { symbol := symbol, side := side, event := "OPEN", entry := price,
      exit_price := none, tp := tp, sl := sl, pnl_pct := none,
      net_pnl_usd := none, reason := "" }
  { s with positions := aset s.positions symbol pos,
           last_trade_ts := aset s.last_trade_ts symbol now,
           trade_counts_hour := s.trade_counts_hour ++ [now],
           log := s.log ++ [row] }

/-- Embeds `PaperEngine.maybe_close_on_price(symbol, price)`: TP first, then SL,
then (for either side) the holding-age timeout. -/
def maybeCloseOnPrice (cfg : Config) (s : State) (now : ℚ) (symbol : String)
    (price : ℚ) : Option CloseResult × State :=
  match alookup s.positions symbol with
  | none => (none, s)
  | some pos =>
    if pos.side = "LONG" then
      if pos.tp ≤ price then close cfg s symbol price "TP"
      else if price ≤ pos.sl then close cfg s symbol price "SL"
      else if 0 < cfg.MAX_HOLDING_SEC ∧ cfg.MAX_HOLDING_SEC ≤ now - pos.opened_ts
      then close cfg s symbol price "TIMEOUT"
      else (none, s)
    else
      if price ≤ pos.tp then close cfg s symbol price "TP"
      else if pos.sl ≤ price then close cfg s symbol price "SL"
      else if 0 < cfg.MAX_HOLDING_SEC ∧ cfg.MAX_HOLDING_SEC ≤ now - pos.opened_ts
      then close cfg s symbol price "TIMEOUT"
      else (none, s)

/-- Embeds `PaperEngine.reset_all_streaks(active_symbols)`: zero every stored
streak, ensure a zero entry for each active symbol (Python skips that pass
when the argument list is empty/None), clear both freeze flags and the
trigger. -/
def resetAllStreaks (s : State) (active : List String) : State :=
  let zeroed := s.streak_losses.map (fun kv => (kv.1, (0 : ℕ)))
  let streaks := if active.isEmpty then zeroed
                 else active.foldl (fun m a => aset m a 0) zeroed
  { s with streak_losses := streaks,
           freeze_paper_entries := false,
           freeze_streak_updates := false,
           trigger_symbol := none }

/-- The paper-open fragment of `Orchestrator._handle_trade_tick` (lines
1283–1286): when not frozen, open iff `PAPER_ENABLED and _can_open(symbol)`
(short-circuit: `_can_open` runs only when `PAPER_ENABLED`). -/
def tickOpenPhase (cfg : Config) (s : State) (now : ℚ) (symbol side : String)
    (price : ℚ) : State :=
  if s.freeze_paper_entries then s
  else if cfg.PAPER_ENABLED then
    let r := canOpen cfg s now symbol
    if r.1 then openPos cfg r.2 now symbol side price else r.2
  else s

/-- The paper-engine mutations a single orchestrator event performs, short
of `reset_all_streaks`: a trade tick (`_handle_trade_tick`: close-on-price,
then — with the signal outcome as an oracle — the guarded open), or one
sweep of `paper_timeout_loop` over a timed-out symbol (a `close` with
reason `TIMEOUT`). -/
inductive PaperOp where
  | tick (symbol : String) (price : ℚ) (now : ℚ) (sig : Option String)
  | sweep (symbol : String) (price : ℚ)

def step (cfg : Config) (s : State) : PaperOp → State
  | .tick symbol price now sig =>
    let s1 := (maybeCloseOnPrice cfg s now symbol price).2
    match sig with
    | none => s1
    | some side => tickOpenPhase cfg s1 now symbol side price
  | .sweep symbol price => (close cfg s symbol price "TIMEOUT").2

def run (cfg : Config) (s : State) : List PaperOp → State
  | [] => s
  | op :: ops => run cfg (step cfg s op) ops

end Paper

/-! ## Concrete sample data used by witnesses and counterexamples -/

/-- A small concrete configuration (values of the same shape as the
defaults in `Config`). -/
def cfg0 : Config :=
  { TRADE_NOTIONAL_USD := 50, MAX_HOLDING_SEC := 600,
    MAX_TRADES_PER_HOUR := 100, COOLDOWN_AFTER_TRADE_SEC := 0,
    TP_PCT := 1, SL_PCT := 1, LOSS_STREAK_TO_ARM := 2, PAPER_ENABLED := true,
    LIVE_NOTIONAL_USD := 5, LIVE_LEVERAGE := 2, LIVE_MAX_POSITIONS := 1,
    WATCH_POLL_SEC := 2, WATCH_PROFIT_TIMEOUT_SEC := 5,
    WATCH_HARD_TIMEOUT_SEC := 12000,
    EMERGENCY_CLOSE_ON_HARD_TIMEOUT := false,
    WS_STALE_SEC := 120, WS_STALE_HITS_TO_RECONNECT := 2,
    SYMBOL_MODE := "HYBRID_PRIORITY", WHITELIST := [], BLACKLIST := [],
    SKIP_SYMBOLS := [], QUOTE := "USDT", AUTO_TOP_N := 10,
    TARGET_SYMBOLS := 10, MIN_24H_QUOTE_VOL := 30000000 }

/-- A live LONG paper position on symbol "B", entry 100, tp 101, sl 99. -/
def posB : Paper.Position :=
  { symbol := "B", side := "LONG", entry := 100, tp := 101, sl := 99,
    opened_ts := 0 }

/-- A paper state holding `posB` with one recorded loss on "B", not frozen. -/
def sB : Paper.State :=
  { positions := [("B", posB)], last_trade_ts := [("B", 0)],
    trade_counts_hour := [0], streak_losses := [("B", 1)],
    freeze_paper_entries := false, freeze_streak_updates := false,
    trigger_symbol := none, log := [] }

/-- Claim C1 (amended). For a paper close performed while
`freeze_streak_updates` is false: a close with reason `SL`, or any other
non-`TP` close with strictly negative net pnl, increments
`streak_losses[symbol]` by exactly 1; a `TP` close, or any other close with
non-negative net pnl (including a zero-pnl `TIMEOUT`), resets
`streak_losses[symbol]` to 0. -/
theorem paper_close_streak_update (cfg : Config) (s : Paper.State)
    (symbol : String) (exit_price : ℚ) (reason : String) (pos : Paper.Position)
    (hpos : alookup s.positions symbol = some pos)
    (hfsu : s.freeze_streak_updates = false) :
    ((reason = "SL" ∨ (reason ≠ "SL" ∧ reason ≠ "TP" ∧
        cfg.TRADE_NOTIONAL_USD * (Paper.pnlPct pos exit_price / 100) < 0)) →
      Paper.streakGet (Paper.close cfg s symbol exit_price reason).2 symbol
        = Paper.streakGet s symbol + 1) ∧
    ((reason = "TP" ∨ (reason ≠ "SL" ∧
        0 ≤ cfg.TRADE_NOTIONAL_USD * (Paper.pnlPct pos exit_price / 100))) →
      Paper.streakGet (Paper.close cfg s symbol exit_price reason).2 symbol
        = 0) := by
  constructor
  · rintro (hSL | ⟨hnSL, hnTP, hneg⟩)
    · subst hSL
      simp [Paper.close, hpos, hfsu, Paper.streakGet, Paper.isLoss,
        Paper.newStreak, apply_ite Paper.State.streak_losses, ite_self,
        alookup_aset_self]
    · simp [Paper.close, hpos, hfsu, Paper.streakGet, Paper.isLoss,
        Paper.newStreak, hnSL, hnTP, hneg,
        apply_ite Paper.State.streak_losses, ite_self, alookup_aset_self]
  · rintro (hTP | ⟨hnSL, hge⟩)
    · subst hTP
      simp [Paper.close, hpos, hfsu, Paper.streakGet, Paper.isLoss,
        Paper.newStreak, apply_ite Paper.State.streak_losses, ite_self,
        alookup_aset_self]
    · have hnotlt : ¬ (cfg.TRADE_NOTIONAL_USD *
          (Paper.pnlPct pos exit_price / 100) < 0) := not_lt.mpr hge
      by_cases hTP : reason = "TP"
      · subst hTP
        simp [Paper.close, hpos, hfsu, Paper.streakGet, Paper.isLoss,
          Paper.newStreak, apply_ite Paper.State.streak_losses, ite_self,
          alookup_aset_self]
      · simp [Paper.close, hpos, hfsu, Paper.streakGet, Paper.isLoss,
          Paper.newStreak, hnSL, hTP, hnotlt,
          apply_ite Paper.State.streak_losses, ite_self, alookup_aset_self]

/-- Witness for `paper_close_streak_update`: closing `posB` at price 90
with reason `SL` takes the streak on "B" from 1 to 2. -/
theorem paper_close_streak_update_witness :
    Paper.streakGet (Paper.close cfg0 sB "B" 90 "SL").2 "B"
      = Paper.streakGet sB "B" + 1 :=
  (paper_close_streak_update cfg0 sB "B" 90 "SL" posB rfl rfl).1 (Or.inl rfl)

/-- Claim C1 counterexample. A `TIMEOUT` close with net pnl exactly 0
(exit = entry = 100) *resets* the streak on "B" to 0; the claim's
"reason `TIMEOUT` and non-positive net pnl increments the streak by 1"
would require it to become 2 (the prior streak was 1). -/
theorem paper_close_timeout_zero_pnl_resets :
    Paper.streakGet (Paper.close cfg0 sB "B" 100 "TIMEOUT").2 "B" = 0 ∧
    Paper.streakGet sB "B" = 1 := by
  constructor
  · simp [Paper.close, Paper.streakGet, Paper.pnlPct, Paper.isLoss,
      Paper.newStreak, cfg0, sB, posB, alookup, aset, aerase]
  · rfl

/-- Claim C2. At a paper close that performs a streak update
(`freeze_streak_updates = false`), if the engine was not frozen and the
post-update streak on the closed symbol reaches `LOSS_STREAK_TO_ARM`, then
`close` returns with `freeze_paper_entries = true`,
`freeze_streak_updates = true` and `trigger_symbol` = that symbol. -/
theorem paper_close_arms_freeze (cfg : Config) (s : Paper.State)
    (symbol : String) (exit_price : ℚ) (reason : String) (pos : Paper.Position)
    (hpos : alookup s.positions symbol = some pos)
    (hfsu : s.freeze_streak_updates = false)
    (hfpe : s.freeze_paper_entries = false)
    (harm : cfg.LOSS_STREAK_TO_ARM ≤
      Paper.streakGet (Paper.close cfg s symbol exit_price reason).2 symbol) :
    (Paper.close cfg s symbol exit_price reason).2.freeze_paper_entries = true ∧
    (Paper.close cfg s symbol exit_price reason).2.freeze_streak_updates = true ∧
    (Paper.close cfg s symbol exit_price reason).2.trigger_symbol
      = some symbol := by
  simp only [Paper.close, hpos, hfsu, Bool.false_eq_true, if_false,
    Paper.streakGet, apply_ite Paper.State.streak_losses, ite_self,
    alookup_aset_self, Option.getD_some] at harm
  simp only [Paper.close, hpos, hfsu, Bool.false_eq_true, if_false]
  split
  next hc => exact ⟨rfl, rfl, rfl⟩
  next hc =>
    exfalso
    apply hc
    refine ⟨by simp [hfpe], ?_⟩
    simpa using harm

/-- Witness for `paper_close_arms_freeze`: an `SL` close on "B" with prior
streak 1 and `LOSS_STREAK_TO_ARM = 2` freezes the engine and records "B"
as the trigger symbol. -/
theorem paper_close_arms_freeze_witness :
    (Paper.close cfg0 sB "B" 90 "SL").2.freeze_paper_entries = true ∧
    (Paper.close cfg0 sB "B" 90 "SL").2.freeze_streak_updates = true ∧
    (Paper.close cfg0 sB "B" 90 "SL").2.trigger_symbol = some "B" :=
  paper_close_arms_freeze cfg0 sB "B" 90 "SL" posB rfl rfl rfl
    (by simp [Paper.close, Paper.streakGet, Paper.pnlPct, Paper.isLoss,
          Paper.newStreak, cfg0, sB, posB, alookup, aset, aerase])

/-- Every stored value of an association list being zero forces every
defaulted lookup to zero. -/
theorem alookup_getD_zero_of_allZero (l : List (String × ℕ)) (k : String)
    (h : ∀ kv ∈ l, kv.2 = 0) : (alookup l k).getD 0 = 0 := by
  induction l with
  | nil => rfl
  | cons hd tl ih =>
    obtain ⟨k', v'⟩ := hd
    by_cases hk : k' = k
    · have : v' = 0 := h (k', v') (List.mem_cons_self _ _)
      simp [alookup, hk, this]
    · simp only [alookup, if_neg hk]
      exact ih (fun kv hkv => h kv (List.mem_cons_of_mem _ hkv))

theorem aset_zero_allZero (l : List (String × ℕ)) (k : String)
    (h : ∀ kv ∈ l, kv.2 = 0) : ∀ kv ∈ aset l k 0, kv.2 = 0 := by
  induction l with
  | nil => intro kv hkv; simp [aset] at hkv; simp [hkv]
  | cons hd tl ih =>
    obtain ⟨k', v'⟩ := hd
    intro kv hkv
    by_cases hk : k' = k
    · have hrw : aset ((k', v') :: tl) k 0 = (k', 0) :: tl := by simp [aset, hk]
      rw [hrw] at hkv
      rcases List.mem_cons.mp hkv with h2 | h2
      · simp [h2]
      · exact h kv (List.mem_cons_of_mem _ h2)
    · simp only [aset, if_neg hk] at hkv
      rcases List.mem_cons.mp hkv with h2 | h2
      · exact h kv (by simp [h2])
      · exact ih (fun kv hkv => h kv (List.mem_cons_of_mem _ hkv)) kv h2

theorem foldl_aset_zero_allZero (active : List String)
    (l : List (String × ℕ)) (h : ∀ kv ∈ l, kv.2 = 0) :
    ∀ kv ∈ active.foldl (fun m a => aset m a 0) l, kv.2 = 0 := by
  induction active generalizing l with
  | nil => simpa using h
  | cons hd tl ih =>
    simp only [List.foldl_cons]
    exact ih (aset l hd 0) (aset_zero_allZero l hd h)

/-- Claim C4. After `reset_all_streaks(active_symbols)`, every symbol's
streak reads 0 (under the dict's defaulted lookup), both freeze flags are
false and the trigger symbol is cleared — regardless of the prior state. -/
theorem reset_all_streaks_clears (s : Paper.State) (active : List String)
    (symbol : String) :
    Paper.streakGet (Paper.resetAllStreaks s active) symbol = 0 ∧
    (Paper.resetAllStreaks s active).freeze_paper_entries = false ∧
    (Paper.resetAllStreaks s active).freeze_streak_updates = false ∧
    (Paper.resetAllStreaks s active).trigger_symbol = none := by
  refine ⟨?_, rfl, rfl, rfl⟩
  have hzero : ∀ kv ∈ s.streak_losses.map (fun kv => (kv.1, (0 : ℕ))),
      kv.2 = 0 := by
    intro kv hkv
    simp only [List.mem_map] at hkv
    obtain ⟨kv', _, hkv'⟩ := hkv
    simp [← hkv']
  unfold Paper.resetAllStreaks Paper.streakGet
  by_cases hact : active.isEmpty
  · simp only [hact, if_true]
    exact alookup_getD_zero_of_allZero _ symbol hzero
  · simp only [hact, Bool.false_eq_true, if_false]
    exact alookup_getD_zero_of_allZero _ symbol
      (foldl_aset_zero_allZero active _ hzero)

theorem close_freeze_mono (cfg : Config) (s : Paper.State) (symbol : String)
    (price : ℚ) (reason : String) (hfz : s.freeze_paper_entries = true) :
    (Paper.close cfg s symbol price reason).2.freeze_paper_entries = true := by
  cases h : alookup s.positions symbol with
  | none => simpa [Paper.close, h] using hfz
  | some pos =>
    simp [Paper.close, h, hfz, apply_ite Paper.State.freeze_paper_entries,
      ite_self]

theorem close_positions_cases (cfg : Config) (s : Paper.State) (symbol : String)
    (price : ℚ) (reason : String) :
    (Paper.close cfg s symbol price reason).2.positions = s.positions ∨
    (Paper.close cfg s symbol price reason).2.positions
      = aerase s.positions symbol := by
  cases h : alookup s.positions symbol with
  | none => left; simp [Paper.close, h]
  | some pos =>
    right
    simp [Paper.close, h, apply_ite Paper.State.positions, ite_self]

/-- The triple of facts a frozen close preserves: the freeze flag, the
unique-keys invariant, and that no position is created. -/
theorem close_frozen_triple (cfg : Config) (s : Paper.State) (symbol : String)
    (price : ℚ) (reason : String) (hfz : s.freeze_paper_entries = true)
    (hnd : keysNodup s.positions) :
    (Paper.close cfg s symbol price reason).2.freeze_paper_entries = true ∧
    keysNodup (Paper.close cfg s symbol price reason).2.positions ∧
    ∀ sym p, alookup (Paper.close cfg s symbol price reason).2.positions sym
      = some p → alookup s.positions sym = some p := by
  refine ⟨close_freeze_mono cfg s symbol price reason hfz, ?_, ?_⟩
  · rcases close_positions_cases cfg s symbol price reason with h | h
    · rw [h]; exact hnd
    · rw [h]; exact keysNodup_aerase _ _ hnd
  · intro sym p hp
    rcases close_positions_cases cfg s symbol price reason with h | h
    · rwa [h] at hp
    · rw [h] at hp; exact alookup_aerase_sub _ _ _ _ hnd hp

theorem maybeClose_snd_cases (cfg : Config) (s : Paper.State) (now : ℚ)
    (symbol : String) (price : ℚ) :
    (Paper.maybeCloseOnPrice cfg s now symbol price).2 = s ∨
    ∃ r, (Paper.maybeCloseOnPrice cfg s now symbol price).2
      = (Paper.close cfg s symbol price r).2 := by
  cases h : alookup s.positions symbol with
  | none => left; simp [Paper.maybeCloseOnPrice, h]
  | some pos =>
    simp only [Paper.maybeCloseOnPrice, h]
    split_ifs <;>
      first
        | (left; rfl)
        | (right; exact ⟨_, rfl⟩)

theorem canOpen_frozen (cfg : Config) (s : Paper.State) (now : ℚ)
    (symbol : String) (hfz : s.freeze_paper_entries = true) :
    Paper.canOpen cfg s now symbol = (false, s) := by
  simp [Paper.canOpen, hfz]

theorem tickOpenPhase_frozen (cfg : Config) (s : Paper.State) (now : ℚ)
    (symbol side : String) (price : ℚ)
    (hfz : s.freeze_paper_entries = true) :
    Paper.tickOpenPhase cfg s now symbol side price = s := by
  simp [Paper.tickOpenPhase, hfz]

theorem step_frozen (cfg : Config) (op : Paper.PaperOp) (s : Paper.State)
    (hfz : s.freeze_paper_entries = true) (hnd : keysNodup s.positions) :
    (Paper.step cfg s op).freeze_paper_entries = true ∧
    keysNodup (Paper.step cfg s op).positions ∧
    ∀ sym p, alookup (Paper.step cfg s op).positions sym = some p →
      alookup s.positions sym = some p := by
  cases op with
  | sweep symbol price =>
    exact close_frozen_triple cfg s symbol price "TIMEOUT" hfz hnd
  | tick symbol price now sig =>
    have h1 : (Paper.maybeCloseOnPrice cfg s now symbol price).2.freeze_paper_entries
        = true ∧
        keysNodup (Paper.maybeCloseOnPrice cfg s now symbol price).2.positions ∧
        ∀ sym p,
          alookup (Paper.maybeCloseOnPrice cfg s now symbol price).2.positions sym
            = some p → alookup s.positions sym = some p := by
      rcases maybeClose_snd_cases cfg s now symbol price with h | ⟨r, h⟩
      · rw [h]; exact ⟨hfz, hnd, fun _ _ hp => hp⟩
      · rw [h]; exact close_frozen_triple cfg s symbol price r hfz hnd
    cases sig with
    | none => exact h1
    | some side =>
      have hrw : Paper.step cfg s (.tick symbol price now (some side))
          = (Paper.maybeCloseOnPrice cfg s now symbol price).2 := by
        simp only [Paper.step]
        exact tickOpenPhase_frozen cfg _ now symbol side price h1.1
      rw [hrw]
      exact h1

/-- Claim C3. Once `freeze_paper_entries = true`, no sequence of
non-`reset_all_streaks` paper operations (trade ticks — each of which runs
the guarded open path — and timeout sweeps) ever creates a paper position:
the freeze flag stays set and every position present afterwards was already
present before. -/
theorem frozen_paper_open_noop (cfg : Config) (ops : List Paper.PaperOp)
    (s : Paper.State) (hfz : s.freeze_paper_entries = true)
    (hnd : keysNodup s.positions) :
    (Paper.run cfg s ops).freeze_paper_entries = true ∧
    ∀ sym p, alookup (Paper.run cfg s ops).positions sym = some p →
      alookup s.positions sym = some p := by
  induction ops generalizing s with
  | nil => exact ⟨hfz, fun _ _ hp => hp⟩
  | cons op rest ih =>
    obtain ⟨hfz', hnd', hsub⟩ := step_frozen cfg op s hfz hnd
    obtain ⟨hfz'', hsub'⟩ := ih (Paper.step cfg s op) hfz' hnd'
    exact ⟨hfz'', fun sym p hp => hsub sym p (hsub' sym p hp)⟩

/-- A frozen variant of `sB` (as after arming on "B"). -/
def sF : Paper.State :=
  { sB with freeze_paper_entries := true, freeze_streak_updates := true,
            trigger_symbol := some "B" }

/-- A concrete schedule of paper operations: a signal-bearing tick on "A",
a timeout sweep of "B" and a signal-bearing tick on "B". -/
def ops0 : List Paper.PaperOp :=
  [.tick "A" 100 10 (some "LONG"), .sweep "B" 100,
   .tick "B" 50 20 (some "SHORT")]

/-- Witness for `frozen_paper_open_noop` at the frozen state `sF` under the
schedule `ops0`. -/
theorem frozen_paper_open_noop_witness :
    (Paper.run cfg0 sF ops0).freeze_paper_entries = true ∧
    ∀ sym p, alookup (Paper.run cfg0 sF ops0).positions sym = some p →
      alookup sF.positions sym = some p :=
  frozen_paper_open_noop cfg0 ops0 sF rfl
    (by unfold keysNodup sF sB; decide)

namespace Live

/-- Per-symbol exchange filters as parsed by
`AsterFapi._parse_exchange_info` and served by `get_symbol_filters`. -/
structure SymbolFilters where
  stepSize : ℚ
  minQty : ℚ
  minNotional : ℚ
  tickSize : ℚ
deriving DecidableEq

/-- Embeds `_round_step(x, step)`: round a quantity DOWN to the nearest multiple
of `stepSize` (`math.floor(x / step) * step`; a non-positive step returns
`x` unchanged). -/
def roundStep (x step : ℚ) : ℚ :=
  if step ≤ 0 then x else ⌊x / step⌋ * step

/-- The quantity-sizing prefix of `LiveEngine.open_live` (lines 849–866):
`qty = LIVE_NOTIONAL_USD * LIVE_LEVERAGE / last_price`, rounded down to
`stepSize` when the step is positive, then rejected iff `qty < minQty`.
`Except.ok qty` means the market entry order is submitted with that
quantity; note the function never reads `minNotional`. -/
def openLiveQty (cfg : Config) (f : SymbolFilters) (last_price : ℚ) :
    Except String ℚ :=
  let notional_effective := cfg.LIVE_NOTIONAL_USD * (cfg.LIVE_LEVERAGE : ℚ)
  let qty0 := notional_effective / last_price
  let qty := if 0 < f.stepSize then roundStep qty0 f.stepSize else qty0
  if qty < f.minQty then Except.error "MinQty" else Except.ok qty

/-- One element of a `positionRisk` response after `_csv_safe_float`
parsing of `positionAmt` and `entryPrice`. -/
structure RiskItem where
  positionAmt : ℚ
  entryPrice : ℚ
deriving DecidableEq

/-- The JSON shapes `reconcile_position` distinguishes: a list (uses the
first element when non-empty), a single object, or anything else. -/
inductive RiskJson where
  | jlist (items : List RiskItem)
  | jdict (item : RiskItem)
  | jother
deriving DecidableEq

/-- Selects `pos = j[0]` when `j` is a non-empty list, `j` itself when a dict,
otherwise "not a dict" (`None`). -/
def parseRisk : RiskJson → Option RiskItem
  | .jlist [] => none
  | .jlist (x :: _) => some x
  | .jdict d => some d
  | .jother => none

/-- Entry of `LiveEngine.open_positions` (the fields `reconcile_position`
reads and writes). -/
structure LivePos where
  symbol : String
  side : String
  qty : ℚ
  entry : Option ℚ
  opened_ts : ℚ
  order_id_entry : String
deriving DecidableEq

/-- Local state of `LiveEngine`: the `open_positions` dict. -/
structure LiveState where
  open_positions : List (String × LivePos)
deriving DecidableEq

/-- Embeds `LiveEngine.reconcile_position(symbol)`, with the outcome of the
`position_risk` gateway call passed explicitly (`Except.error` = the call
raised). On an exception, or an unparsable body, the cached entry (or
`none`) is returned and the map is untouched; `|positionAmt| < 1e-12`
drops the local entry; otherwise the entry is rebuilt from the remote
side/quantity/entry, keeping the cached `opened_ts`/`order_id_entry`. -/
def reconcilePosition (s : LiveState) (symbol : String)
    (resp : Except Unit RiskJson) (now : ℚ) : LiveState × Option LivePos :=
  match resp with
  | .error _ => (s, alookup s.open_positions symbol)
  | .ok j =>
    match parseRisk j with
    | none => (s, alookup s.open_positions symbol)
    | some item =>
      if |item.positionAmt| < 1 / 10 ^ 12 then
        ({ open_positions := aerase s.open_positions symbol }, none)
      else
        let side := if 0 < item.positionAmt then "LONG" else "SHORT"
        let prev := alookup s.open_positions symbol
        let p : LivePos :=
          { symbol := symbol, side := side, qty := |item.positionAmt|,
            entry := if 0 < item.entryPrice then some item.entryPrice
                     else none,
            opened_ts := (prev.map (·.opened_ts)).getD now,
            order_id_entry := (prev.map (·.order_id_entry)).getD "" }
        ({ open_positions := aset s.open_positions symbol p }, some p)

/-- Outcome of one iteration of the polling loop in
`LiveEngine.watch_until_close`. -/
inductive WatchAction where
  | exitLoop
  | closeMarket (reason : String)
  | continueWait (new_t0 : ℚ)
deriving DecidableEq

/-- One iteration of the `while` body of `LiveEngine.watch_until_close`
(lines 1043–1058), after the reconcile: `pos` is the reconciled position's
quantity (`none` = nothing on the exchange), `now` the current time, `t0`
the (restartable) timer origin. The body exits when the position is gone
or has zero quantity; at the hard deadline it either market-closes with
reason `TIMEOUT_HARD_EMERGENCY` (when `EMERGENCY_CLOSE_ON_HARD_TIMEOUT`)
or restarts the timer; otherwise it waits. The iteration reads no tick
price and no pnl. -/
def watchIter (cfg : Config) (pos : Option ℚ) (now t0 : ℚ) : WatchAction :=
  match pos with
  | none => .exitLoop
  | some qty =>
    if qty = 0 then .exitLoop
    else if 0 < cfg.WATCH_HARD_TIMEOUT_SEC ∧
            cfg.WATCH_HARD_TIMEOUT_SEC ≤ now - t0 then
      if cfg.EMERGENCY_CLOSE_ON_HARD_TIMEOUT then
        .closeMarket "TIMEOUT_HARD_EMERGENCY"
      else .continueWait now
    else .continueWait t0

end Live

/-- Claim C5 (amended). With a positive `stepSize`: a successful
`open_live` sizing submits `qty = ⌊notional·leverage/price / step⌋ · step`
— an integer multiple of `stepSize`, at least `minQty`; the only sizing
failure is `MinQty`, raised exactly when the rounded quantity is below
`minQty`. No `minNotional` check exists on this path. -/
theorem open_live_qty_safety (cfg : Config) (f : Live.SymbolFilters)
    (last_price : ℚ) (hstep : 0 < f.stepSize) :
    (∀ q, Live.openLiveQty cfg f last_price = Except.ok q →
      q = ⌊(cfg.LIVE_NOTIONAL_USD * (cfg.LIVE_LEVERAGE : ℚ) / last_price)
            / f.stepSize⌋ * f.stepSize ∧
      f.minQty ≤ q ∧ ∃ k : ℤ, q = (k : ℚ) * f.stepSize) ∧
    (∀ e, Live.openLiveQty cfg f last_price = Except.error e →
      e = "MinQty" ∧
      Live.roundStep (cfg.LIVE_NOTIONAL_USD * (cfg.LIVE_LEVERAGE : ℚ)
        / last_price) f.stepSize < f.minQty) := by
  have hns : ¬ f.stepSize ≤ 0 := not_le.mpr hstep
  constructor
  · intro q hq
    simp only [Live.openLiveQty, Live.roundStep, hstep, hns, if_true,
      if_false] at hq
    by_cases hlt : (⌊(cfg.LIVE_NOTIONAL_USD * (cfg.LIVE_LEVERAGE : ℚ)
        / last_price) / f.stepSize⌋ : ℚ) * f.stepSize < f.minQty
    · rw [if_pos hlt] at hq; exact absurd hq (by simp)
    · rw [if_neg hlt] at hq
      have hq' := Except.ok.inj hq
      refine ⟨hq'.symm, ?_, ⟨_, hq'.symm⟩⟩
      rw [← hq']; exact not_lt.mp hlt
  · intro e he
    simp only [Live.openLiveQty, Live.roundStep, hstep, hns, if_true,
      if_false] at he
    by_cases hlt : (⌊(cfg.LIVE_NOTIONAL_USD * (cfg.LIVE_LEVERAGE : ℚ)
        / last_price) / f.stepSize⌋ : ℚ) * f.stepSize < f.minQty
    · rw [if_pos hlt] at he
      have he' := Except.error.inj he
      refine ⟨he'.symm, ?_⟩
      simpa [Live.roundStep, hns] using hlt
    · rw [if_neg hlt] at he; exact absurd he (by simp)

/-- Concrete filters: step 1, minQty 1, tick 1/100 — and a huge
`minNotional` that `open_live` never consults. -/
def f0 : Live.SymbolFilters :=
  { stepSize := 1, minQty := 1, minNotional := 1000000, tickSize := 1/100 }

/-- Witness for `open_live_qty_safety`: with `cfg0`
(notional 5 × leverage 2) at price 1 and `f0`, the sized quantity is 10 —
a multiple of the step and ≥ minQty. -/
theorem open_live_qty_safety_witness :
    (10 : ℚ) = ⌊(cfg0.LIVE_NOTIONAL_USD * (cfg0.LIVE_LEVERAGE : ℚ) / 1)
      / f0.stepSize⌋ * f0.stepSize ∧
    f0.minQty ≤ 10 ∧ ∃ k : ℤ, (10 : ℚ) = (k : ℚ) * f0.stepSize :=
  (open_live_qty_safety cfg0 f0 1 (by norm_num [f0])).1 10
    (by norm_num [Live.openLiveQty, Live.roundStep, cfg0, f0])

/-- Claim C5 counterexample. At price 1 with `cfg0` (notional 5, leverage 2)
and filters `f0`, the sizing succeeds with qty 10 even though
`qty × last_price × leverage = 20` is far below `minNotional = 1000000`:
`open_live` performs no `MinNotional` check, while the claim requires a
MinNotional failure here. -/
theorem open_live_no_min_notional_check :
    Live.openLiveQty cfg0 f0 1 = Except.ok 10 ∧
    (10 : ℚ) * 1 * (cfg0.LIVE_LEVERAGE : ℚ) < f0.minNotional := by
  constructor
  · norm_num [Live.openLiveQty, Live.roundStep, cfg0, f0]
  · norm_num [cfg0, f0]

/-- Claim C6 (amended). The watch-loop iteration implements no
profit-timeout: it never closes with reason `TIMEOUT_PROFIT` (any close it
performs carries reason `TIMEOUT_HARD_EMERGENCY`), and while the position
is open and the hard deadline has not been reached it simply keeps
waiting — in particular at `t0 + WATCH_PROFIT_TIMEOUT_SEC`, whatever the
pnl (the iteration does not even sample a price). -/
theorem watch_loop_no_profit_timeout (cfg : Config) (pos : Option ℚ)
    (now t0 : ℚ) :
    (∀ r, Live.watchIter cfg pos now t0 = .closeMarket r →
      r = "TIMEOUT_HARD_EMERGENCY") ∧
    (∀ qty, pos = some qty → qty ≠ 0 →
      ¬ (0 < cfg.WATCH_HARD_TIMEOUT_SEC ∧
         cfg.WATCH_HARD_TIMEOUT_SEC ≤ now - t0) →
      Live.watchIter cfg pos now t0 = .continueWait t0) := by
  constructor
  · intro r hr
    cases pos with
    | none => simp [Live.watchIter] at hr
    | some qty =>
      simp only [Live.watchIter] at hr
      split_ifs at hr with h1 h2 h3
      all_goals simp_all
  · rintro qty rfl hqty hhard
    simp [Live.watchIter, hqty, hhard]

/-- Witness for `watch_loop_no_profit_timeout`: with `cfg0`
(`WATCH_PROFIT_TIMEOUT_SEC = 5`, hard timeout 12000) and an open quantity
of 1 at `now − t0 = 5`, the iteration continues waiting with the timer
unchanged. -/
theorem watch_loop_no_profit_timeout_witness :
    Live.watchIter cfg0 (some 1) 5 0 = .continueWait 0 :=
  (watch_loop_no_profit_timeout cfg0 (some 1) 5 0).2 1 rfl
    (by norm_num) (by norm_num [cfg0])

/-- Claim C6 counterexample. Exactly at `t0 + WATCH_PROFIT_TIMEOUT_SEC`
(= 5 with `cfg0`) with the position still open, the loop body merely
continues waiting — it performs no `TIMEOUT_PROFIT` close (the claimed
profit-timeout close does not exist in `watch_until_close`; pnl is not
even an input of the iteration). -/
theorem watch_iter_no_timeout_profit_close :
    Live.watchIter cfg0 (some 1) 5 0 = .continueWait 0 ∧
    Live.WatchAction.continueWait 0 ≠ .closeMarket "TIMEOUT_PROFIT" ∧
    (5 : ℚ) - 0 = cfg0.WATCH_PROFIT_TIMEOUT_SEC := by
  refine ⟨?_, (by simp), (by norm_num [cfg0])⟩
  norm_num [Live.watchIter, cfg0]

/-- Claim C10. `reconcile_position`: a raised `position_risk` query leaves
`open_positions` untouched and returns the cached entry (or `none`); and
any call that changes the local map had a successfully parsed response
(`Except.ok` with a usable list/object body). -/
theorem reconcile_error_preserves_state (s : Live.LiveState) (symbol : String)
    (res : Except Unit Live.RiskJson) (now : ℚ) :
    (res = Except.error () →
      Live.reconcilePosition s symbol res now
        = (s, alookup s.open_positions symbol)) ∧
    ((Live.reconcilePosition s symbol res now).1 ≠ s →
      ∃ j item, res = Except.ok j ∧ Live.parseRisk j = some item) := by
  cases res with
  | error e =>
    refine ⟨fun _ => rfl, fun hne => absurd rfl hne⟩
  | ok j =>
    refine ⟨(fun h => nomatch h), fun hne => ?_⟩
    cases hp : Live.parseRisk j with
    | none =>
      exfalso
      apply hne
      simp [Live.reconcilePosition, hp]
    | some item => exact ⟨j, item, rfl, hp⟩

/-- The empty live state. -/
def liveS0 : Live.LiveState := { open_positions := [] }

/-- Witness for `reconcile_error_preserves_state`: a parsed response with
`positionAmt = 5` inserts a local entry (the state changes), so the
existence clause produces the parsed item. -/
theorem reconcile_error_preserves_state_witness :
    ∃ j item,
      (Except.ok (Live.RiskJson.jdict ⟨5, 100⟩) : Except Unit Live.RiskJson)
        = Except.ok j ∧ Live.parseRisk j = some item :=
  (reconcile_error_preserves_state liveS0 "X"
      (Except.ok (Live.RiskJson.jdict ⟨5, 100⟩)) 0).2
    (by
      intro h
      have := congrArg (fun st => st.open_positions.length) h
      norm_num [Live.reconcilePosition, Live.parseRisk, liveS0, aset,
        alookup] at this)

namespace Watchdog

/-- The watchdog-relevant orchestrator state: the local `stale_hits`
counter of `ws_watchdog_loop`, the `ws_reconnect_requested` event, whether
`self._ws` currently holds a socket, and the `_ws_close_sent` latch. -/
structure WdState where
  stale_hits : ℕ
  reconnect_requested : Bool
  ws_present : Bool
  ws_close_sent : Bool
deriving DecidableEq

/-- One 1-second check of `Orchestrator.ws_watchdog_loop` (lines
1417–1451). The input `stale` is the observation
`WS_STALE_SEC < now − last_ws_msg_ts`; the second component counts the
`close(4000, "stale")` frames sent by this check (0 or 1). A fresh stream
resets the hit counter; a stale one increments it, and once it reaches
`WS_STALE_HITS_TO_RECONNECT` the event is set and — only when a socket is
present and the latch is clear — a single close frame is sent. -/
def wdStep (cfg : Config) (s : WdState) (stale : Bool) : WdState × ℕ :=
  if ¬ stale then ({ s with stale_hits := 0 }, 0)
  else
    let h := s.stale_hits + 1
    if h < cfg.WS_STALE_HITS_TO_RECONNECT then
      ({ s with stale_hits := h }, 0)
    else
      let s1 := { s with stale_hits := h, reconnect_requested := true }
      if s1.ws_present ∧ ¬ s1.ws_close_sent = true then
        ({ s1 with ws_close_sent := true }, 1)
      else (s1, 0)

/-- Iterate the watchdog over a sequence of staleness observations,
accumulating the number of close frames sent. -/
def wdRun (cfg : Config) (s : WdState) : List Bool → WdState × ℕ
  | [] => (s, 0)
  | b :: rest =>
    let r := wdStep cfg s b
    let r' := wdRun cfg r.1 rest
    (r'.1, r.2 + r'.2)

theorem wdStep_false (cfg : Config) (s : WdState) :
    wdStep cfg s false = ({ s with stale_hits := 0 }, 0) := by
  simp [wdStep]

theorem wdStep_true_lt (cfg : Config) (s : WdState)
    (hlt : s.stale_hits + 1 < cfg.WS_STALE_HITS_TO_RECONNECT) :
    wdStep cfg s true = ({ s with stale_hits := s.stale_hits + 1 }, 0) := by
  simp [wdStep, hlt]

theorem wdStep_true_ge_send (cfg : Config) (s : WdState)
    (hge : ¬ s.stale_hits + 1 < cfg.WS_STALE_HITS_TO_RECONNECT)
    (hp : s.ws_present = true) (hs : s.ws_close_sent = false) :
    wdStep cfg s true
      = ({ s with
            stale_hits := s.stale_hits + 1,
            reconnect_requested := true, ws_close_sent := true }, 1) := by
  simp [wdStep, hge, hp, hs]

theorem wdStep_true_ge_latched (cfg : Config) (s : WdState)
    (hge : ¬ s.stale_hits + 1 < cfg.WS_STALE_HITS_TO_RECONNECT)
    (hl : s.ws_close_sent = true) :
    wdStep cfg s true
      = ({ s with
            stale_hits := s.stale_hits + 1,
            reconnect_requested := true }, 0) := by
  simp [wdStep, hge, hl]

theorem wdStep_sent_mono (cfg : Config) (s : WdState) (b : Bool)
    (h : s.ws_close_sent = true) : (wdStep cfg s b).1.ws_close_sent = true ∧
    (wdStep cfg s b).2 = 0 := by
  cases b with
  | false => rw [wdStep_false]; exact ⟨h, rfl⟩
  | true =>
    by_cases hlt : s.stale_hits + 1 < cfg.WS_STALE_HITS_TO_RECONNECT
    · rw [wdStep_true_lt cfg s hlt]; exact ⟨h, rfl⟩
    · rw [wdStep_true_ge_latched cfg s hlt h]; exact ⟨h, rfl⟩

theorem wdStep_req_mono (cfg : Config) (s : WdState) (b : Bool)
    (h : s.reconnect_requested = true) :
    (wdStep cfg s b).1.reconnect_requested = true := by
  cases b with
  | false => rw [wdStep_false]; exact h
  | true =>
    by_cases hlt : s.stale_hits + 1 < cfg.WS_STALE_HITS_TO_RECONNECT
    · rw [wdStep_true_lt cfg s hlt]; exact h
    · by_cases hl : s.ws_close_sent = true
      · rw [wdStep_true_ge_latched cfg s hlt hl]
      · have hl' : s.ws_close_sent = false := by
          cases hc : s.ws_close_sent
          · rfl
          · exact absurd hc hl
        by_cases hp : s.ws_present = true
        · rw [wdStep_true_ge_send cfg s hlt hp hl']
        · have hp' : s.ws_present = false := by
            cases hc : s.ws_present
            · rfl
            · exact absurd hc hp
          simp [wdStep, hlt, hp']

/-- After the latch is set (and the event requested), further stale checks
send nothing and keep the event set. -/
theorem wdRun_sent (cfg : Config) (n : ℕ) (s : WdState)
    (hs : s.ws_close_sent = true) (hr : s.reconnect_requested = true) :
    (wdRun cfg s (List.replicate n true)).2 = 0 ∧
    (wdRun cfg s (List.replicate n true)).1.reconnect_requested = true := by
  induction n generalizing s with
  | zero => exact ⟨rfl, hr⟩
  | succ m ih =>
    simp only [List.replicate_succ, wdRun]
    obtain ⟨hs', hc⟩ := wdStep_sent_mono cfg s true hs
    obtain ⟨ih1, ih2⟩ := ih (wdStep cfg s true).1 hs'
      (wdStep_req_mono cfg s true hr)
    exact ⟨by rw [hc, ih1], ih2⟩

/-- Core induction for a stale episode: starting un-latched with a socket
present and some accumulated hits, a run of `n ≥ 1` consecutive stale
checks whose total reaches the threshold sends exactly one close and sets
the reconnect event. -/
theorem wdRun_stale_core (cfg : Config) (n : ℕ) (s : WdState)
    (hs : s.ws_close_sent = false) (hp : s.ws_present = true)
    (hn : 1 ≤ n) (hthr : cfg.WS_STALE_HITS_TO_RECONNECT ≤ n + s.stale_hits) :
    (wdRun cfg s (List.replicate n true)).2 = 1 ∧
    (wdRun cfg s (List.replicate n true)).1.reconnect_requested = true := by
  induction n generalizing s with
  | zero => exact absurd hn (by simp)
  | succ m ih =>
    simp only [List.replicate_succ, wdRun]
    by_cases hlt : s.stale_hits + 1 < cfg.WS_STALE_HITS_TO_RECONNECT
    · -- below threshold: nothing sent, recurse with one more hit
      have hm : 1 ≤ m := by omega
      obtain ⟨ih1, ih2⟩ := ih { s with stale_hits := s.stale_hits + 1 }
        hs hp hm (by simp; omega)
      rw [wdStep_true_lt cfg s hlt]
      exact ⟨by simpa using ih1, ih2⟩
    · -- threshold reached: this check sends the single close and latches
      rw [wdStep_true_ge_send cfg s hlt hp hs]
      obtain ⟨h1, h2⟩ := wdRun_sent cfg m
        { s with
          stale_hits := s.stale_hits + 1,
          reconnect_requested := true, ws_close_sent := true }
        rfl rfl
      exact ⟨by simpa using h1, h2⟩

/-- A fresh stream never draws a close frame, whatever the state. -/
theorem wdRun_fresh (cfg : Config) (m : ℕ) (s : WdState) :
    (wdRun cfg s (List.replicate m false)).2 = 0 := by
  induction m generalizing s with
  | zero => rfl
  | succ k ih =>
    simp only [List.replicate_succ, wdRun]
    rw [wdStep_false]
    simpa using ih { s with stale_hits := 0 }

/-- Claim C9. A stale episode — `WS_STALE_HITS_TO_RECONNECT ≤ n` consecutive
stale checks starting from a rearmed watchdog (`stale_hits = 0`) with a
socket present and the close latch clear — sets `ws_reconnect_requested`
and sends exactly one `close(4000, "stale")`; never a second one within
the episode; and a fresh stream draws no close at all. -/
theorem ws_watchdog_one_close_per_episode (cfg : Config) (s : WdState)
    (n m : ℕ) (hs : s.ws_close_sent = false) (hp : s.ws_present = true)
    (hh : s.stale_hits = 0) (hn : 1 ≤ n)
    (hthr : cfg.WS_STALE_HITS_TO_RECONNECT ≤ n) :
    (wdRun cfg s (List.replicate n true)).2 = 1 ∧
    (wdRun cfg s (List.replicate n true)).1.reconnect_requested = true ∧
    (wdRun cfg s (List.replicate m false)).2 = 0 := by
  obtain ⟨h1, h2⟩ := wdRun_stale_core cfg n s hs hp hn (by omega)
  exact ⟨h1, h2, wdRun_fresh cfg m s⟩

end Watchdog

/-- The watchdog state right after (re)connection: rearmed counter, no
request pending, socket present, latch clear. -/
def wd0 : Watchdog.WdState :=
  { stale_hits := 0, reconnect_requested := false, ws_present := true,
    ws_close_sent := false }

/-- Witness for `ws_watchdog_one_close_per_episode`: with `cfg0`
(`WS_STALE_HITS_TO_RECONNECT = 2`), three consecutive stale checks from
`wd0` send exactly one close and set the event, and two fresh checks send
none. -/
theorem ws_watchdog_one_close_per_episode_witness :
    (Watchdog.wdRun cfg0 wd0 (List.replicate 3 true)).2 = 1 ∧
    (Watchdog.wdRun cfg0 wd0 (List.replicate 3 true)).1.reconnect_requested
      = true ∧
    (Watchdog.wdRun cfg0 wd0 (List.replicate 2 false)).2 = 0 :=
  Watchdog.ws_watchdog_one_close_per_episode cfg0 wd0 3 2 rfl rfl rfl
    (by norm_num) (by norm_num [cfg0])

theorem close_fst_reason (cfg : Config) (s : Paper.State) (symbol : String)
    (price : ℚ) (reason : String) (pos : Paper.Position)
    (hpos : alookup s.positions symbol = some pos) :
    (Paper.close cfg s symbol price reason).1
      = some { symbol := symbol, pnl_pct := Paper.pnlPct pos price,
               net_pnl_usd := cfg.TRADE_NOTIONAL_USD *
                 (Paper.pnlPct pos price / 100),
               reason := reason } := by
  simp [Paper.close, hpos]

/-- Claim C7 (amended, for `mirror_paper_to_live.PaperEngine`). At a tick on
a symbol with an open paper position, `maybe_close_on_price` evaluates the
triggers in priority order TP, then SL, then TIMEOUT; when a price trigger
and the timeout hold simultaneously the price-based reason wins. (The
second engine, `src/paper_engine.py`, checks the timeout first — see the
counterexample.) -/
theorem maybe_close_priority (cfg : Config) (s : Paper.State) (now : ℚ)
    (symbol : String) (price : ℚ) (pos : Paper.Position)
    (hpos : alookup s.positions symbol = some pos) :
    ((Paper.maybeCloseOnPrice cfg s now symbol price).1.map (·.reason))
      = if (if pos.side = "LONG" then pos.tp ≤ price else price ≤ pos.tp)
        then some "TP"
        else if (if pos.side = "LONG" then price ≤ pos.sl else pos.sl ≤ price)
        then some "SL"
        else if 0 < cfg.MAX_HOLDING_SEC ∧
               cfg.MAX_HOLDING_SEC ≤ now - pos.opened_ts
        then some "TIMEOUT"
        else none := by
  by_cases hside : pos.side = "LONG"
  · simp only [Paper.maybeCloseOnPrice, hpos, hside, if_true]
    split_ifs with h1 h2 h3 <;>
      simp [close_fst_reason cfg s symbol price _ pos hpos]
  · simp only [Paper.maybeCloseOnPrice, hpos, hside, if_false]
    split_ifs with h1 h2 h3 <;>
      simp [close_fst_reason cfg s symbol price _ pos hpos]

/-- Witness for `maybe_close_priority`: at price 101.5 (≥ tp = 101) and an
age past `MAX_HOLDING_SEC` (now = 700, opened at 0, limit 600), both the
TP trigger and the timeout hold, and the mirror engine closes with reason
`TP`. -/
theorem maybe_close_priority_witness :
    ((Paper.maybeCloseOnPrice cfg0 sB 700 "B" (203/2)).1.map (·.reason))
      = some "TP" := by
  have h := maybe_close_priority cfg0 sB 700 "B" (203/2) posB rfl
  rw [h]
  norm_num [posB]

namespace SrcPaper

/-- Configuration of `src/paper_engine.py` (`getattr`-read tunables of the
functions embedded here; integer-valued in the source). -/
structure Config2 where
  MAX_CONSECUTIVE_LOSSES : ℤ
  PAUSE_AFTER_CONSECUTIVE_LOSSES_SEC : ℤ
  SYMBOL_MAX_SL_STREAK : ℤ
  SYMBOL_PAUSE_AFTER_SL_STREAK_SEC : ℤ
  MAX_HOLDING_SEC : ℤ

/-- Dataclass `Position` of `src/paper_engine.py`. -/
structure Position2 where
  symbol : String
  side : String
  entry_price : ℚ
  qty : ℚ
  tp_price : ℚ
  sl_price : ℚ
  opened_at : ℤ
deriving DecidableEq

/-- One row of `data/paper_trades.csv` as written by `_close`. -/
structure Row2 where
  ts : ℤ
  symbol : String
  side : String
  entry : ℚ
  exit_price : ℚ
  pnl_usd : ℚ
  pnl_pct : ℚ
  reason : String
  hold_sec : ℤ
deriving DecidableEq

/-- Mutable state of `src.paper_engine.PaperEngine` (the fields touched by
`_close`/`on_price`). -/
structure State2 where
  pos : List (String × Position2)
  last_trade_ts : List (String × ℤ)
  trades_window : List ℤ
  consecutive_losses : ℕ
  pause_until_ts : ℤ
  symbol_sl_streak : List (String × ℕ)
  symbol_pause_until : List (String × ℤ)
  log : List Row2

/-- Embeds `PaperEngine._apply_global_risk_after_close(pnl_usd)`; `_now()` is the
explicit `now`. Zero limits disable the feature and reset the counters. -/
def applyGlobalRisk (cfg : Config2) (now : ℤ) (pnl_usd : ℚ)
    (s : State2) : State2 :=
  if cfg.MAX_CONSECUTIVE_LOSSES ≤ 0 ∨
     cfg.PAUSE_AFTER_CONSECUTIVE_LOSSES_SEC ≤ 0 then
    { s with consecutive_losses := 0, pause_until_ts := 0 }
  else
    let cl : ℕ := if pnl_usd < 0 then s.consecutive_losses + 1 else 0
    let s1 := { s with consecutive_losses := cl }
    if cfg.MAX_CONSECUTIVE_LOSSES ≤ (cl : ℤ) then
      { s1 with pause_until_ts :=
          now + cfg.PAUSE_AFTER_CONSECUTIVE_LOSSES_SEC }
    else s1

/-- Embeds `PaperEngine._apply_symbol_risk_after_close(symbol, reason)`. -/
def applySymbolRisk (cfg : Config2) (now : ℤ) (symbol : String)
    (reason : String) (s : State2) : State2 :=
  if cfg.SYMBOL_MAX_SL_STREAK ≤ 0 ∨
     cfg.SYMBOL_PAUSE_AFTER_SL_STREAK_SEC ≤ 0 then
    { s with symbol_sl_streak := aset s.symbol_sl_streak symbol 0,
             symbol_pause_until := aset s.symbol_pause_until symbol 0 }
  else
    let st : ℕ := if reason = "SL"
      then (alookup s.symbol_sl_streak symbol).getD 0 + 1 else 0
    let s1 := { s with symbol_sl_streak := aset s.symbol_sl_streak symbol st }
    let cur : ℕ := (alookup s1.symbol_sl_streak symbol).getD 0
    if cfg.SYMBOL_MAX_SL_STREAK ≤ (cur : ℤ) then
      { s1 with
        symbol_pause_until := aset s1.symbol_pause_until symbol
          (now + cfg.SYMBOL_PAUSE_AFTER_SL_STREAK_SEC),
        symbol_sl_streak := aset s1.symbol_sl_streak symbol 0 }
    else s1

/-- Embeds `PaperEngine._close(symbol, exit_price, reason)`: pop the position
(no-op when absent), stamp the per-symbol trade time, append to the hourly
window, compute pnl, write the CSV row, then apply the global and
per-symbol risk controls. -/
def closeP (cfg : Config2) (s : State2) (now : ℤ) (symbol : String)
    (exit_price : ℚ) (reason : String) : State2 :=
  match alookup s.pos symbol with
  | none => s
  | some p =>
    let hold := now - p.opened_at
    let s1 := { s with
      pos := aerase s.pos symbol,
      last_trade_ts := aset s.last_trade_ts symbol now,
      trades_window := s.trades_window ++ [now] }
    let pnl := if p.side = "LONG" then p.qty * (exit_price - p.entry_price)
               else p.qty * (p.entry_price - exit_price)
    let pnl_pct := if p.side = "LONG"
      then (exit_price / p.entry_price - 1) * 100
      else if 0 < exit_price then (p.entry_price / exit_price - 1) * 100
      else 0
    let row : Row2 :=
      { ts := now, symbol := symbol, side := p.side, entry := p.entry_price,
        exit_price := exit_price, pnl_usd := pnl, pnl_pct := pnl_pct,
        reason := reason, hold_sec := hold }
    let s2 := { s1 with log := s1.log ++ [row] }
    applySymbolRisk cfg now symbol reason (applyGlobalRisk cfg now pnl s2)

/-- Embeds `PaperEngine.on_price(symbol, price)`: with an open position, the
holding-age timeout is checked FIRST and returns immediately; only then
are the TP and SL price triggers tried. -/
def onPrice (cfg : Config2) (s : State2) (now : ℤ) (symbol : String)
    (price : ℚ) : State2 :=
  match alookup s.pos symbol with
  | none => s
  | some p =>
    if 0 < cfg.MAX_HOLDING_SEC ∧ cfg.MAX_HOLDING_SEC ≤ now - p.opened_at then
      closeP cfg s now symbol price "TIMEOUT"
    else if p.side = "LONG" then
      if p.tp_price ≤ price then closeP cfg s now symbol price "TP"
      else if price ≤ p.sl_price then closeP cfg s now symbol price "SL"
      else s
    else
      if price ≤ p.tp_price then closeP cfg s now symbol price "TP"
      else if p.sl_price ≤ price then closeP cfg s now symbol price "SL"
      else s

end SrcPaper

/-- A `src/paper_engine.py` configuration with the risk pauses disabled
(zeros, as the class treats 0 as "disabled") and a 600 s holding limit. -/
def cfg2 : SrcPaper.Config2 :=
  { MAX_CONSECUTIVE_LOSSES := 0, PAUSE_AFTER_CONSECUTIVE_LOSSES_SEC := 0,
    SYMBOL_MAX_SL_STREAK := 0, SYMBOL_PAUSE_AFTER_SL_STREAK_SEC := 0,
    MAX_HOLDING_SEC := 600 }

/-- LONG position of the second engine on "B": entry 100, tp 101, sl 99,
opened at t = 0. -/
def pos2 : SrcPaper.Position2 :=
  { symbol := "B", side := "LONG", entry_price := 100, qty := 1/2,
    tp_price := 101, sl_price := 99, opened_at := 0 }

/-- Second-engine state holding only `pos2`. -/
def s2 : SrcPaper.State2 :=
  { pos := [("B", pos2)], last_trade_ts := [], trades_window := [],
    consecutive_losses := 0, pause_until_ts := 0, symbol_sl_streak := [],
    symbol_pause_until := [], log := [] }

/-- Claim C7 counterexample. In `src/paper_engine.py` (`on_price`), at
t = 700 with price 102 — which satisfies BOTH the TP trigger (102 ≥ 101)
and the holding-age timeout (700 − 0 ≥ 600) — the position closes with
reason `TIMEOUT`, not `TP`: that engine checks the timeout before the
price triggers, so the claimed TP-first priority fails there. -/
theorem src_on_price_timeout_shadows_tp :
    ((SrcPaper.onPrice cfg2 s2 700 "B" 102).log.map (·.reason))
      = ["TIMEOUT"] ∧
    pos2.tp_price ≤ (102 : ℚ) ∧ (600 : ℤ) ≤ 700 - pos2.opened_at := by
  refine ⟨?_, (by norm_num [pos2]), (by norm_num [pos2])⟩
  norm_num [SrcPaper.onPrice, SrcPaper.closeP, SrcPaper.applyGlobalRisk,
    SrcPaper.applySymbolRisk, cfg2, s2, pos2, alookup, aset, aerase]

/-! ## Universe builder (`Orchestrator.build_universe`) -/

/-- Python `str.upper()` restricted to per-character uppercasing. -/
def pyUpper (s : String) : String := ⟨s.data.map Char.toUpper⟩

/-- Python `str.strip()`: drop whitespace at both ends. -/
def pyStrip (s : String) : String :=
  ⟨((s.data.dropWhile Char.isWhitespace).reverse.dropWhile
     Char.isWhitespace).reverse⟩

/-- One iteration of the final dedup loop of `build_universe`:
`s = s.upper().strip(); if s and s not in uniq: uniq.append(s)`. -/
def pyUniqStep (acc : List String) (s : String) : List String :=
  let s3 := pyStrip (pyUpper s)
  if s3 ≠ "" ∧ s3 ∉ acc then acc ++ [s3] else acc

/-- The final `uniq` pass of `build_universe`. -/
def pyUniq (l : List String) : List String := l.foldl pyUniqStep []

/-- One `tickers_24h()` element after parsing (`symbol`, `quoteVolume`). -/
structure TickerItem where
  symbol : String
  quoteVolume : ℚ

/-- The `syms` list `Orchestrator.build_universe` computes before its final
dedup pass. `WHITELIST_ONLY` (and the fetch-failure fallback) filter the
whitelist; otherwise the 24h tickers are filtered (quote suffix, black/skip
lists, volume floor waived for whitelisted symbols), sorted by descending
quote volume (stable), cut to `AUTO_TOP_N`, merged with the whitelist
(whitelist symbols that made the top ranked first), and truncated to
`TARGET_SYMBOLS` — the truncation happens only on this ranked path. -/
def rawUniverse (cfg : Config)
    (tickersResp : Except Unit (List TickerItem)) : List String :=
  let wl := cfg.WHITELIST
  let bl := cfg.BLACKLIST
  let sk := cfg.SKIP_SYMBOLS
  if pyUpper cfg.SYMBOL_MODE = "WHITELIST_ONLY" then
    wl.filter (fun s => decide (s ≠ "" ∧ s ∉ bl ∧ s ∉ sk))
  else
    match tickersResp with
    | .error _ => wl.filter (fun s => decide (s ≠ "" ∧ s ∉ bl ∧ s ∉ sk))
    | .ok tickers =>
      let filtered := tickers.filterMap (fun t =>
        let sym := pyUpper t.symbol
        if ¬ sym.endsWith cfg.QUOTE then none
        else if sym ∈ bl ∨ sym ∈ sk then none
        else if t.quoteVolume < cfg.MIN_24H_QUOTE_VOL ∧ sym ∉ wl then none
        else some (sym, t.quoteVolume))
      let sorted := filtered.mergeSort (fun a b => decide (b.2 ≤ a.2))
      let top := (sorted.take cfg.AUTO_TOP_N).map Prod.fst
      let merged :=
        if wl.isEmpty then top
        else
          let syms1 := wl.foldl (fun acc s =>
            if s ∈ top ∧ s ∉ acc then acc ++ [s] else acc) []
          top.foldl (fun acc s => if s ∉ acc then acc ++ [s] else acc) syms1
      merged.take cfg.TARGET_SYMBOLS

/-- Embeds `Orchestrator.build_universe` (lines 1160–1204): the `syms`
computation followed by the upper/strip dedup pass. -/
def buildUniverse (cfg : Config)
    (tickersResp : Except Unit (List TickerItem)) : List String :=
  pyUniq (rawUniverse cfg tickersResp)

theorem pyUniq_aux_nodup (l : List String) :
    ∀ acc, acc.Nodup → (l.foldl pyUniqStep acc).Nodup := by
  induction l with
  | nil => intro acc h; exact h
  | cons hd tl ih =>
    intro acc h
    simp only [List.foldl_cons]
    apply ih
    simp only [pyUniqStep]
    split_ifs with hc
    · simp only [List.nodup_append, List.nodup_cons, List.nodup_nil]
      refine ⟨h, by simp, ?_⟩
      intro x hx hx'
      simp only [List.mem_singleton] at hx'
      subst hx'
      exact hc.2 hx
    · exact h

theorem pyUniq_aux_sub (l : List String) :
    ∀ acc x, x ∈ l.foldl pyUniqStep acc →
      x ∈ acc ∨ ∃ w ∈ l, x = pyStrip (pyUpper w) := by
  induction l with
  | nil => intro acc x hx; exact Or.inl hx
  | cons hd tl ih =>
    intro acc x hx
    simp only [List.foldl_cons] at hx
    rcases ih (pyUniqStep acc hd) x hx with h | ⟨w, hw, hxw⟩
    · simp only [pyUniqStep] at h
      split_ifs at h with hc
      · rcases List.mem_append.mp h with h2 | h2
        · exact Or.inl h2
        · simp only [List.mem_singleton] at h2
          exact Or.inr ⟨hd, List.mem_cons_self _ _, h2⟩
      · exact Or.inl h
    · exact Or.inr ⟨w, List.mem_cons_of_mem _ hw, hxw⟩

theorem pyUniq_aux_len (l : List String) :
    ∀ acc, (l.foldl pyUniqStep acc).length ≤ acc.length + l.length := by
  induction l with
  | nil => intro acc; simp
  | cons hd tl ih =>
    intro acc
    simp only [List.foldl_cons, List.length_cons]
    refine le_trans (ih (pyUniqStep acc hd)) ?_
    simp only [pyUniqStep]
    split_ifs
    · simp; omega
    · omega

/-- Claim C8 (amended). Every `build_universe` output is duplicate-free; in
`WHITELIST_ONLY` mode (with the whitelist already normalized, as
`Config.load` guarantees) the output is contained in the whitelist; and
the `TARGET_SYMBOLS` length cap holds on the ranked path (non-whitelist
mode with a successful ticker fetch) — `WHITELIST_ONLY` and the
fetch-failure fallback never truncate. -/
theorem build_universe_shape (cfg : Config)
    (resp : Except Unit (List TickerItem)) :
    (buildUniverse cfg resp).Nodup ∧
    (pyUpper cfg.SYMBOL_MODE = "WHITELIST_ONLY" →
      (∀ w ∈ cfg.WHITELIST, pyStrip (pyUpper w) = w) →
      ∀ s ∈ buildUniverse cfg resp, s ∈ cfg.WHITELIST) ∧
    (pyUpper cfg.SYMBOL_MODE ≠ "WHITELIST_ONLY" →
      ∀ ts, resp = Except.ok ts →
      (buildUniverse cfg resp).length ≤ cfg.TARGET_SYMBOLS) := by
  refine ⟨pyUniq_aux_nodup _ [] List.nodup_nil, ?_, ?_⟩
  · intro hmode hwl s hs
    rcases pyUniq_aux_sub _ [] s hs with h | ⟨w, hw, hsw⟩
    · exact absurd h (by simp)
    · have hraw : rawUniverse cfg resp
          = cfg.WHITELIST.filter
              (fun s => decide (s ≠ "" ∧ s ∉ cfg.BLACKLIST ∧
                s ∉ cfg.SKIP_SYMBOLS)) := by
        unfold rawUniverse
        rw [if_pos hmode]
      rw [hraw] at hw
      have hwmem : w ∈ cfg.WHITELIST := (List.mem_filter.mp hw).1
      rw [hsw, hwl w hwmem]
      exact hwmem
  · intro hmode ts hts
    subst hts
    have hraw : (rawUniverse cfg (Except.ok ts)).length
        ≤ cfg.TARGET_SYMBOLS := by
      unfold rawUniverse
      rw [if_neg hmode]
      exact List.length_take_le _ _
    calc (buildUniverse cfg (Except.ok ts)).length
        ≤ ([] : List String).length
            + (rawUniverse cfg (Except.ok ts)).length :=
          pyUniq_aux_len _ []
      _ ≤ cfg.TARGET_SYMBOLS := by simpa using hraw

/-- A `WHITELIST_ONLY` configuration with a two-symbol whitelist but
`TARGET_SYMBOLS = 1`. -/
def cfgU : Config :=
  { cfg0 with SYMBOL_MODE := "WHITELIST_ONLY",
              WHITELIST := ["AAAUSDT", "BBBUSDT"], TARGET_SYMBOLS := 1 }

/-- Witness for `build_universe_shape`: under `cfgU` the first whitelist
symbol appears in the output and the subset clause places it in the
whitelist. -/
theorem build_universe_shape_witness : "AAAUSDT" ∈ cfgU.WHITELIST :=
  (build_universe_shape cfgU (Except.ok [])).2.1 (by decide) (by decide)
    "AAAUSDT" (by decide)

/-- Claim C8 counterexample. In `WHITELIST_ONLY` mode the truncation to
`TARGET_SYMBOLS` is skipped: with `cfgU` (whitelist of two,
`TARGET_SYMBOLS = 1`) the build returns both symbols — length 2 > 1 —
contradicting the claim's "length at most target_symbols in every
symbol_mode". -/
theorem build_universe_whitelist_only_not_truncated :
    buildUniverse cfgU (Except.ok []) = ["AAAUSDT", "BBBUSDT"] ∧
    cfgU.TARGET_SYMBOLS = 1 := by
  constructor
  · decide
  · decide

end AsterBot
